/-
Verification development for the grid-world reinforcement-learning repository.

The repository has two variants of the environment:
  * src/grid.py               : a stateless Environment whose step takes the state
                                as an argument (used by the dynamic-programming
                                solver in src/policy.py) — namespace DP below;
  * src/Reinforcement Learning/grid.py : a stateful Environment owning the agent
                                position, cumulative return and terminal flag
                                (used by the SARSA / Q-learning code in
                                src/Reinforcement Learning/policy.py) — namespace RL below.

Python assertions are modelled as Option / error results: a failing assert yields
none and, for the stateful wrapper, leaves the state unchanged (all asserts in the
source fire before any mutation).  Numeric values (rewards, value functions,
discounts) are modelled as ℤ / ℚ; every reward in the source is the integer
-1, 0 or 1.
-/
import Mathlib

namespace GridWorld

/-- The Action enum shared by both grid.py variants: UP=0, DOWN=1, LEFT=2, RIGHT=3. -/
inductive Action where
  | UP
  | DOWN
  | LEFT
  | RIGHT
deriving DecidableEq

/-- Action.value, the integer value of the enum member. -/
def Action.value : Action → ℕ
  | .UP => 0
  | .DOWN => 1
  | .LEFT => 2
  | .RIGHT => 3

/-- The GridTile enum: HOLE=0, FIELD=1, GOAL=2 plus the three display-only variants. -/
inductive GridTile where
  | HOLE
  | FIELD
  | GOAL
  | AGENT
  | AGENT_IN_GOAL
  | AGENT_IN_HOLE
deriving DecidableEq

/-- self._possible_actions = [action for action in Action]: enumeration order. -/
def possibleActions : List Action := [Action.UP, Action.DOWN, Action.LEFT, Action.RIGHT]

/-- x in range(0, n) for both components of a coordinate pair. -/
def inRange (n : ℕ) (p : ℤ × ℤ) : Prop :=
  0 ≤ p.1 ∧ p.1 < (n : ℤ) ∧ 0 ≤ p.2 ∧ p.2 < (n : ℤ)

instance (n : ℕ) (p : ℤ × ℤ) : Decidable (inRange n p) := by
  unfold inRange; infer_instance

/-- The candidate coordinate one unit in the direction of the action
(the new_state computation in both step implementations). -/
def move (p : ℤ × ℤ) : Action → ℤ × ℤ
  | .UP => (p.1 - 1, p.2)
  | .DOWN => (p.1 + 1, p.2)
  | .LEFT => (p.1, p.2 - 1)
  | .RIGHT => (p.1, p.2 + 1)

end GridWorld

namespace DP

open GridWorld

/-- The stateless Environment of src/grid.py: the grid size and the tile map
(an n x n numpy array of GridTile values, modelled as a total function that is
only ever queried at in-range coordinates). -/
structure Environment where
  n : ℕ
  grid : ℤ × ℤ → GridTile

/-- Environment.__init__ of src/grid.py: asserts n > 1 and the goal in range,
then builds an all-FIELD grid with the GOAL tile at goal_pos. -/
def mkEnvironment (n : ℕ) (goalPos : ℤ × ℤ) : Option Environment :=
  if ¬ 1 < n then none
  else if ¬ inRange n goalPos then none
  else some { n := n, grid := fun p => if p = goalPos then GridTile.GOAL else GridTile.FIELD }

/-- Environment.create_hole: asserts the position in range and currently FIELD,
then writes a HOLE tile there. -/
def Environment.create_hole (e : Environment) (holePos : ℤ × ℤ) : Option Environment :=
  if ¬ inRange e.n holePos then none
  else if ¬ (e.grid holePos = GridTile.FIELD) then none
  else some { e with grid := Function.update e.grid holePos GridTile.HOLE }

/-- The body of Environment.step of src/grid.py (lines 57-83), after the bounds
assert on the incoming state: terminal short-circuit, candidate move, boundary
bump, and tile inspection of the candidate. -/
def Environment.stepCore (e : Environment) (state : ℤ × ℤ) (action : Action) :
    (ℤ × ℤ) × ℤ × Bool :=
  if e.grid state = GridTile.GOAL ∨ e.grid state = GridTile.HOLE then (state, 0, true)
  else if ¬ inRange e.n (move state action) then (state, -1, false)
  else if e.grid (move state action) = GridTile.HOLE then (move state action, -1, true)
  else if e.grid (move state action) = GridTile.GOAL then (move state action, 1, true)
  else (move state action, 0, false)

/-- Environment.step of src/grid.py: the bounds assert on the incoming state
(line 55) modelled as an Option, followed by the step body. -/
def Environment.step (e : Environment) (state : ℤ × ℤ) (action : Action) :
    Option ((ℤ × ℤ) × ℤ × Bool) :=
  if inRange e.n state then some (e.stepCore state action) else none

/-- A concrete 2 x 2 environment with the goal at (1,1) and a hole at (1,0),
used to instantiate universally quantified theorems. -/
def dpEx : Environment :=
  { n := 2
    grid := fun p =>
      if p = ((1 : ℤ), (1 : ℤ)) then GridTile.GOAL
      else if p = ((1 : ℤ), (0 : ℤ)) then GridTile.HOLE
      else GridTile.FIELD }

end DP

namespace RL

open GridWorld

/-- The stateful Environment of src/Reinforcement Learning/grid.py: grid size,
tile map, construction-time agent position, current agent position, cumulative
return and terminal flag. -/
structure Environment where
  n : ℕ
  grid : ℤ × ℤ → GridTile
  initialAgentPos : ℤ × ℤ
  agentPos : ℤ × ℤ
  ret : ℤ
  done : Bool

/-- Environment.__init__: asserts n > 1, agent and goal positions in range and
the agent distinct from the goal; builds the all-FIELD grid with the GOAL tile
at goal_pos, the agent at agent_pos, zero return and a cleared terminal flag. -/
def mkEnvironment (n : ℕ) (agentPos goalPos : ℤ × ℤ) : Option Environment :=
  if ¬ 1 < n then none
  else if ¬ inRange n agentPos then none
  else if ¬ inRange n goalPos then none
  else if agentPos = goalPos then none
  else some
    { n := n
      grid := fun p => if p = goalPos then GridTile.GOAL else GridTile.FIELD
      initialAgentPos := agentPos
      agentPos := agentPos
      ret := 0
      done := false }

/-- Environment.step of the stateful wrapper (lines 43-74).  The two asserts
(agent position in range, not already done) fire before any mutation, so a
failing assert is modelled as a none triple with the environment unchanged.
Otherwise: short-circuit when the agent already stands on a terminal tile,
candidate move, boundary bump (reward -1, position kept) or move with tile
inspection, accumulation of the reward into the return, and the triple
(agent position, reward, terminal flag). -/
def Environment.step (e : Environment) (action : Action) :
    Option ((ℤ × ℤ) × ℤ × Bool) × Environment :=
  if ¬ inRange e.n e.agentPos then (none, e)
  else if e.done then (none, e)
  else if e.grid e.agentPos = GridTile.GOAL ∨ e.grid e.agentPos = GridTile.HOLE then
    (some (e.agentPos, 0, true), e)
  else if ¬ inRange e.n (move e.agentPos action) then
    (some (e.agentPos, -1, e.done), { e with ret := e.ret + -1 })
  else if e.grid (move e.agentPos action) = GridTile.HOLE then
    (some (move e.agentPos action, -1, true),
      { e with agentPos := move e.agentPos action, done := true, ret := e.ret + -1 })
  else if e.grid (move e.agentPos action) = GridTile.GOAL then
    (some (move e.agentPos action, 1, true),
      { e with agentPos := move e.agentPos action, done := true, ret := e.ret + 1 })
  else
    (some (move e.agentPos action, 0, e.done),
      { e with agentPos := move e.agentPos action, ret := e.ret + 0 })

/-- Environment.reset: restore the construction-time position, zero the return,
clear the terminal flag, and return the initial state. -/
def Environment.reset (e : Environment) : (ℤ × ℤ) × Environment :=
  (e.initialAgentPos, { e with agentPos := e.initialAgentPos, ret := 0, done := false })

/-- Environment.create_hole: asserts the position in range and currently FIELD,
then writes a HOLE tile there. -/
def Environment.create_hole (e : Environment) (holePos : ℤ × ℤ) : Option Environment :=
  if ¬ inRange e.n holePos then none
  else if ¬ (e.grid holePos = GridTile.FIELD) then none
  else some { e with grid := Function.update e.grid holePos GridTile.HOLE }

/-- Environment states reachable from a given state through the public
mutators step, reset and create_hole. -/
inductive Reachable : Environment → Environment → Prop where
  | refl (e : Environment) : Reachable e e
  | step (e f : Environment) (a : Action) : Reachable e f → Reachable e (f.step a).2
  | reset (e f : Environment) : Reachable e f → Reachable e (f.reset).2
  | hole (e f g : Environment) (p : ℤ × ℤ) :
      Reachable e f → f.create_hole p = some g → Reachable e g

/-- A concrete 2 x 2 stateful environment: agent at (0,0), goal at (1,1);
it is exactly the result of mkEnvironment 2 (0,0) (1,1). -/
def rlEx : Environment :=
  { n := 2
    grid := fun p => if p = ((1 : ℤ), (1 : ℤ)) then GridTile.GOAL else GridTile.FIELD
    initialAgentPos := ((0 : ℤ), (0 : ℤ))
    agentPos := ((0 : ℤ), (0 : ℤ))
    ret := 0
    done := false }

/-- rlEx after stepping DOWN then RIGHT: the agent has entered the goal and
the terminal flag is set. -/
def rlExDone : Environment := (((rlEx.step Action.DOWN).2).step Action.RIGHT).2

end RL

namespace DP

open GridWorld

/-- A value function: an n x n numpy array of floats, modelled as a total map
from coordinates to rationals (entries outside the grid are never touched). -/
def V : Type := ℤ × ℤ → ℚ

/-- The policy table self._action_policy of src/policy.py: one action per state
(the array stores Action.value integers; the enum members are in bijection with
the stored values, so the table is modelled directly with actions). -/
def PolT : Type := ℤ × ℤ → Action

/-- np.ndindex((n, n)): all grid coordinates in row-major order. -/
def ndindex (n : ℕ) : List (ℤ × ℤ) :=
  (List.range n).flatMap fun i => (List.range n).map fun j => (Int.ofNat i, Int.ofNat j)

/-- The one-step lookahead value reward + discount * value_func[next_state]
computed from one transition-model call, as in policy_evalution,
policy_improvement and value_iteration of src/policy.py. -/
def qVal (e : Environment) (v : V) (discount : ℚ) (s : ℤ × ℤ) (a : Action) : ℚ :=
  ((e.stepCore s a).2.1 : ℚ) + discount * v (e.stepCore s a).1

/-- max(action_value, key=action_value.get) where action_value is a dict built
by inserting the actions in enumeration order: a left scan that replaces the
current best only on a strictly larger value, so the first occurrence of the
maximum wins. -/
def maxByValue (f : Action → ℚ) : Action :=
  List.foldl (fun best a => if f best < f a then a else best) Action.UP
    [Action.DOWN, Action.LEFT, Action.RIGHT]

/-- One state of the policy_improvement loop (src/policy.py lines 84-93):
record the old action, overwrite the policy entry with the argmax of the
one-step values, and clear the stability flag on a change. -/
def improveBody (e : Environment) (v : V) (discount : ℚ) (acc : PolT × Bool)
    (s : ℤ × ℤ) : PolT × Bool :=
  (Function.update acc.1 s (maxByValue (qVal e v discount s)),
    acc.2 && decide (acc.1 s = maxByValue (qVal e v discount s)))

/-- Policy.policy_improvement: sweep all states, overwrite the policy table,
return it with the policy-stability flag. -/
def policyImprovement (e : Environment) (v : V) (discount : ℚ) (p : PolT) : PolT × Bool :=
  List.foldl (improveBody e v discount) (p, true) (ndindex e.n)

/-- The greedy-policy extraction pass of Policy.value_iteration
(src/policy.py lines 155-161): overwrite each policy entry with the argmax of
the one-step values computed from the converged value function. -/
def viExtract (e : Environment) (v : V) (discount : ℚ) (p : PolT) : PolT :=
  List.foldl (fun acc s => Function.update acc s (maxByValue (qVal e v discount s)))
    p (ndindex e.n)

/-- The assigned value reward + discount * value_func[next_state] of one
policy_evalution update (src/policy.py line 62), evaluated on the current,
possibly partially updated, value array. -/
def nvOf (e : Environment) (pol : PolT) (discount : ℚ) (v : V) (s : ℤ × ℤ) : ℚ :=
  ((e.stepCore s (pol s)).2.1 : ℚ) + discount * v (e.stepCore s (pol s)).1

/-- One state update of a policy_evalution sweep (src/policy.py lines 58-63):
read the old entry, overwrite it with the one-step value from the transition
model (Gauss-Seidel style: later states of the same sweep read already updated
entries), and fold the absolute change into delta. -/
def evalBody (e : Environment) (pol : PolT) (discount : ℚ) (acc : V × ℚ)
    (s : ℤ × ℤ) : V × ℚ :=
  (Function.update acc.1 s (nvOf e pol discount acc.1 s),
    max acc.2 |acc.1 s - nvOf e pol discount acc.1 s|)

/-- One full sweep of the policy_evalution while loop: delta starts at 0 and
all states are visited in np.ndindex row-major order. -/
def evalSweep (e : Environment) (pol : PolT) (discount : ℚ) (v : V) : V × ℚ :=
  List.foldl (evalBody e pol discount) (v, 0) (ndindex e.n)

/-- The value array after one policy_evalution sweep. -/
def sweepV (e : Environment) (pol : PolT) (discount : ℚ) (v : V) : V :=
  (evalSweep e pol discount v).1

/-- The delta accumulated by one policy_evalution sweep. -/
def sweepDelta (e : Environment) (pol : PolT) (discount : ℚ) (v : V) : ℚ :=
  (evalSweep e pol discount v).2

/-- The while loop of Policy.policy_evalution (src/policy.py lines 56-65),
bounded by fuel since the source loop has no intrinsic bound: sweep, then
return the updated value function when delta < threshold.  The function
operates on the copy made at line 55, so the caller-supplied array is
untouched (proved separately on the heap model). -/
def evalLoop (e : Environment) (pol : PolT) (discount threshold : ℚ) :
    ℕ → V → Option V
  | 0, _ => none
  | fuel + 1, v =>
      if (evalSweep e pol discount v).2 < threshold then some (evalSweep e pol discount v).1
      else evalLoop e pol discount threshold fuel (evalSweep e pol discount v).1

/-- The maximum of the absolute differences of two value arrays over a list of
states, folded from an initial value: the shape of the delta accumulation. -/
def deltaOf (v w : V) (d : ℚ) (L : List (ℤ × ℤ)) : ℚ :=
  List.foldl (fun acc s => max acc |v s - w s|) d L

/-- A minimal heap of numpy value arrays: refs are indices below next, and
value_func.copy() allocates a fresh ref.  This models which array object the
in-place writes of the solver land on. -/
structure Heap where
  arrs : ℕ → V
  next : ℕ

/-- value_func.copy(): allocate a fresh array holding the same entries and
hand back its ref. -/
def Heap.copy (h : Heap) (r : ℕ) : ℕ × Heap :=
  (h.next, { arrs := Function.update h.arrs h.next (h.arrs r), next := h.next + 1 })

/-- Read one entry of the array behind a ref. -/
def Heap.read (h : Heap) (r : ℕ) (s : ℤ × ℤ) : ℚ := h.arrs r s

/-- Write one entry of the array behind a ref. -/
def Heap.write (h : Heap) (r : ℕ) (s : ℤ × ℤ) (x : ℚ) : Heap :=
  { h with arrs := Function.update h.arrs r (Function.update (h.arrs r) s x) }

/-- One state update of a policy_evalution sweep performed on the heap: every
read and the write go through the ref of the working array. -/
def evalBodyH (e : Environment) (pol : PolT) (discount : ℚ) (r : ℕ)
    (acc : Heap × ℚ) (s : ℤ × ℤ) : Heap × ℚ :=
  (acc.1.write r s (nvOf e pol discount (acc.1.arrs r) s),
    max acc.2 |acc.1.read r s - nvOf e pol discount (acc.1.arrs r) s|)

/-- One full policy_evalution sweep on the heap. -/
def evalSweepH (e : Environment) (pol : PolT) (discount : ℚ) (r : ℕ)
    (h : Heap) : Heap × ℚ :=
  List.foldl (evalBodyH e pol discount r) (h, 0) (ndindex e.n)

/-- The while loop of policy_evalution on the heap, sweeping the working array
until delta < threshold; on success it reports the ref of that array. -/
def evalLoopH (e : Environment) (pol : PolT) (discount threshold : ℚ) (r : ℕ) :
    ℕ → Heap → Option ℕ × Heap
  | 0, h => (none, h)
  | fuel + 1, h =>
      if (evalSweepH e pol discount r h).2 < threshold
      then (some r, (evalSweepH e pol discount r h).1)
      else evalLoopH e pol discount threshold r fuel (evalSweepH e pol discount r h).1

/-- Policy.policy_evalution on the heap: copy the caller-supplied array
(src/policy.py line 55), then run the sweep loop on the fresh copy only. -/
def policyEvaluationH (e : Environment) (pol : PolT) (discount threshold : ℚ)
    (fuel : ℕ) (h : Heap) (rcaller : ℕ) : Option ℕ × Heap :=
  evalLoopH e pol discount threshold (h.copy rcaller).1 fuel (h.copy rcaller).2

/-- The assigned value of one value_iteration sweep update: the Python max of
the four one-step values, folded from the left (src/policy.py lines 147-151). -/
def nvViOf (e : Environment) (discount : ℚ) (v : V) (s : ℤ × ℤ) : ℚ :=
  max (max (max (qVal e v discount s Action.UP) (qVal e v discount s Action.DOWN))
    (qVal e v discount s Action.LEFT)) (qVal e v discount s Action.RIGHT)

/-- One state update of a value_iteration sweep performed on the heap. -/
def viBodyH (e : Environment) (discount : ℚ) (r : ℕ) (acc : Heap × ℚ)
    (s : ℤ × ℤ) : Heap × ℚ :=
  (acc.1.write r s (nvViOf e discount (acc.1.arrs r) s),
    max acc.2 |acc.1.read r s - nvViOf e discount (acc.1.arrs r) s|)

/-- One full value_iteration sweep on the heap. -/
def viSweepH (e : Environment) (discount : ℚ) (r : ℕ) (h : Heap) : Heap × ℚ :=
  List.foldl (viBodyH e discount r) (h, 0) (ndindex e.n)

/-- The value_iteration sweep loop on the heap; the flag reports whether the
loop broke out with delta < threshold (fuel exhaustion reports false). -/
def viLoopH (e : Environment) (discount threshold : ℚ) (r : ℕ) :
    ℕ → Heap → Bool × Heap
  | 0, h => (false, h)
  | fuel + 1, h =>
      if (viSweepH e discount r h).2 < threshold then (true, (viSweepH e discount r h).1)
      else viLoopH e discount threshold r fuel (viSweepH e discount r h).1

/-- The extraction pass of value_iteration on the heap: it only reads the
converged working array and writes only the policy table. -/
def viExtractH (e : Environment) (discount : ℚ) (r : ℕ) (h : Heap) (p : PolT) : PolT :=
  List.foldl
    (fun acc s => Function.update acc s (maxByValue (qVal e (h.arrs r) discount s)))
    p (ndindex e.n)

/-- Policy.value_iteration on the heap: copy the caller-supplied array
(src/policy.py line 142), run the Bellman-optimality sweep loop on the copy,
then derive the greedy policy table from the converged copy. -/
def valueIterationH (e : Environment) (discount threshold : ℚ) (fuel : ℕ)
    (h : Heap) (rcaller : ℕ) (p : PolT) : Option ℕ × PolT × Heap :=
  match viLoopH e discount threshold (h.copy rcaller).1 fuel (h.copy rcaller).2 with
  | (false, h2) => (none, p, h2)
  | (true, h2) =>
      (some (h.copy rcaller).1, viExtractH e discount (h.copy rcaller).1 h2 p, h2)

/-- A concrete one-array heap for witnesses. -/
def heapEx : Heap := { arrs := fun _ => fun _ => 0, next := 1 }

end DP

namespace RL

open GridWorld

/-- The Q-function of src/Reinforcement Learning/policy.py: an n x n x 4 numpy
array, modelled as a map from coordinates and actions to rationals. -/
def QFun : Type := ℤ × ℤ → Action → ℚ

/-- Action(np.argmax(self._q_function[state])): np.argmax returns the first
index attaining the maximum of the four-entry row, scanned in index order. -/
def npArgmax (f : Action → ℚ) : Action :=
  List.foldl (fun best a => if f best < f a then a else best) Action.UP
    [Action.DOWN, Action.LEFT, Action.RIGHT]

/-- The randomness consumed by one epsilon_greedy call: the np.random.rand()
draw (a value in [0,1)) and the np.random.choice index over the four actions. -/
structure Draws where
  rand : ℚ
  choice : Fin 4

/-- np.random.choice(self._possible_actions): the drawn index selects an
action from the enumeration list. -/
def randomChoice (c : Fin 4) : Action := possibleActions.get ⟨c.val, c.isLt⟩

/-- Policy.epsilon_greedy: with probability epsilon a uniformly drawn action,
otherwise the argmax of the Q-row of the state. -/
def epsilonGreedy (epsilon : ℚ) (d : Draws) (q : QFun) (state : ℤ × ℤ) : Action :=
  if d.rand < epsilon then randomChoice d.choice else npArgmax (q state)

/-- max([self._q_function[next_state + (a.value,)] for a in possible_actions]):
Python max over the four-element list, folded from the left. -/
def qRowMax (f : Action → ℚ) : ℚ :=
  max (max (max (f Action.UP) (f Action.DOWN)) (f Action.LEFT)) (f Action.RIGHT)

/-- The numpy assignment self._q_function[state + (action.value,)] = x. -/
def updateQ (q : QFun) (s : ℤ × ℤ) (a : Action) (x : ℚ) : QFun :=
  fun t b => if t = s ∧ b = a then x else q t b

/-- One iteration of the inner while loop of Policy.sarsa (policy.py lines
49-58): select the action by epsilon_greedy, step the environment, select the
next action by a second epsilon_greedy call on the next state (still with the
pre-update Q-table), update Q[state, action] towards
reward + discount * Q[next_state, next_action], and hand back the new
environment, Q-table, state, done flag and the executed action.  A failing
assert inside env.step aborts the episode with none. -/
def sarsaIter (e : Environment) (q : QFun) (s : ℤ × ℤ)
    (learning_rate discount epsilon : ℚ) (d1 d2 : Draws) :
    Option (Environment × QFun × (ℤ × ℤ) × Bool × Action) :=
  match (e.step (epsilonGreedy epsilon d1 q s)).1 with
  | none => none
  | some (next_state, reward, done) =>
      some ((e.step (epsilonGreedy epsilon d1 q s)).2,
        updateQ q s (epsilonGreedy epsilon d1 q s)
          (q s (epsilonGreedy epsilon d1 q s) +
            learning_rate * ((reward : ℚ) +
              discount * q next_state (epsilonGreedy epsilon d2 q next_state) -
              q s (epsilonGreedy epsilon d1 q s))),
        next_state, done, epsilonGreedy epsilon d1 q s)

/-- One iteration of the inner while loop of Policy.q_learning (policy.py
lines 67-75): identical to the sarsa iteration except that the bootstrap
target uses the maximum Q-entry of the next state and no second epsilon_greedy
call is consumed. -/
def qLearningIter (e : Environment) (q : QFun) (s : ℤ × ℤ)
    (learning_rate discount epsilon : ℚ) (d1 : Draws) :
    Option (Environment × QFun × (ℤ × ℤ) × Bool × Action) :=
  match (e.step (epsilonGreedy epsilon d1 q s)).1 with
  | none => none
  | some (next_state, reward, done) =>
      some ((e.step (epsilonGreedy epsilon d1 q s)).2,
        updateQ q s (epsilonGreedy epsilon d1 q s)
          (q s (epsilonGreedy epsilon d1 q s) +
            learning_rate * ((reward : ℚ) +
              discount * qRowMax (q next_state) -
              q s (epsilonGreedy epsilon d1 q s))),
        next_state, done, epsilonGreedy epsilon d1 q s)

/-- The inner while loop of Policy.q_learning, driven by a stream of random
draws and bounded by fuel (the loop has no intrinsic bound): each iteration
consumes one draw; the loop stops when the step reports done. -/
def qLearningLoop (learning_rate discount epsilon : ℚ) (draws : ℕ → Draws) :
    ℕ → Environment → QFun → (ℤ × ℤ) → ℕ → Option (Environment × QFun)
  | 0, _, _, _, _ => none
  | fuel + 1, e, q, s, k =>
      match qLearningIter e q s learning_rate discount epsilon (draws k) with
      | none => none
      | some (e2, q2, s2, done, _) =>
          if done then some (e2, q2)
          else qLearningLoop learning_rate discount epsilon draws fuel e2 q2 s2 (k + 1)

/-- The all-zero Q-table (np.zeros), used to instantiate quantified theorems. -/
def qEx : QFun := fun _ _ => 0

/-- A concrete pair of random draws with rand = 1/2 in [0,1). -/
def dEx : Draws := { rand := 1/2, choice := 0 }

/-- A concrete pair of random draws with rand = 0 in [0,1). -/
def dEx0 : Draws := { rand := 0, choice := 0 }

end RL

-- ===== Theorems =====

namespace DP

open GridWorld

/-- C3: for every in-bounds state whose tile is GOAL or HOLE and every action,
step returns exactly (state, 0, true): terminal states are idempotent sinks and
the action is ignored. -/
theorem step_terminal_sink (e : Environment) (s : ℤ × ℤ) (a : Action)
    (hs : inRange e.n s) (ht : e.grid s = GridTile.GOAL ∨ e.grid s = GridTile.HOLE) :
    e.step s a = some (s, 0, true) := by
  unfold Environment.step Environment.stepCore
  rw [if_pos hs, if_pos ht]

/-- Witness for C3 at a concrete environment, state and action. -/
theorem step_terminal_sink_witness :
    (inRange dpEx.n ((1 : ℤ), (1 : ℤ)) ∧
      (dpEx.grid ((1 : ℤ), (1 : ℤ)) = GridTile.GOAL ∨
        dpEx.grid ((1 : ℤ), (1 : ℤ)) = GridTile.HOLE)) ∧
    dpEx.step ((1 : ℤ), (1 : ℤ)) Action.UP = some (((1 : ℤ), (1 : ℤ)), 0, true) :=
  ⟨⟨by decide, by decide⟩,
    step_terminal_sink dpEx ((1 : ℤ), (1 : ℤ)) Action.UP (by decide) (by decide)⟩

/-- C2: for every in-bounds FIELD state and every action, step satisfies the
four-way case split: off-grid candidate gives (state, -1, false) with the
position unchanged; a HOLE candidate gives (candidate, -1, true); a GOAL
candidate gives (candidate, +1, true); any other candidate gives
(candidate, 0, false). -/
theorem step_field_cases (e : Environment) (s : ℤ × ℤ) (a : Action)
    (hs : inRange e.n s) (hf : e.grid s = GridTile.FIELD) :
    (¬ inRange e.n (move s a) → e.step s a = some (s, -1, false)) ∧
    (inRange e.n (move s a) → e.grid (move s a) = GridTile.HOLE →
      e.step s a = some (move s a, -1, true)) ∧
    (inRange e.n (move s a) → e.grid (move s a) = GridTile.GOAL →
      e.step s a = some (move s a, 1, true)) ∧
    (inRange e.n (move s a) → e.grid (move s a) ≠ GridTile.HOLE →
      e.grid (move s a) ≠ GridTile.GOAL → e.step s a = some (move s a, 0, false)) := by
  have hnt : ¬ (e.grid s = GridTile.GOAL ∨ e.grid s = GridTile.HOLE) := by
    rw [hf]; rintro (h | h) <;> simp at h
  unfold Environment.step Environment.stepCore
  rw [if_pos hs, if_neg hnt]
  refine ⟨fun hoob => by rw [if_pos hoob], fun hin hhole => ?_, fun hin hgoal => ?_,
    fun hin hnh hng => ?_⟩
  · rw [if_neg (not_not_intro hin), if_pos hhole]
  · have hnh : ¬ e.grid (move s a) = GridTile.HOLE := by rw [hgoal]; simp
    rw [if_neg (not_not_intro hin), if_neg hnh, if_pos hgoal]
  · rw [if_neg (not_not_intro hin), if_neg hnh, if_neg hng]

/-- Witness for C2 at a concrete environment, state and action. -/
theorem step_field_cases_witness :
    (inRange dpEx.n ((0 : ℤ), (0 : ℤ)) ∧ dpEx.grid ((0 : ℤ), (0 : ℤ)) = GridTile.FIELD) ∧
    (¬ inRange dpEx.n (move ((0 : ℤ), (0 : ℤ)) Action.UP) →
      dpEx.step ((0 : ℤ), (0 : ℤ)) Action.UP = some (((0 : ℤ), (0 : ℤ)), -1, false)) ∧
    (inRange dpEx.n (move ((0 : ℤ), (0 : ℤ)) Action.UP) →
      dpEx.grid (move ((0 : ℤ), (0 : ℤ)) Action.UP) = GridTile.HOLE →
      dpEx.step ((0 : ℤ), (0 : ℤ)) Action.UP = some (move ((0 : ℤ), (0 : ℤ)) Action.UP, -1, true)) ∧
    (inRange dpEx.n (move ((0 : ℤ), (0 : ℤ)) Action.UP) →
      dpEx.grid (move ((0 : ℤ), (0 : ℤ)) Action.UP) = GridTile.GOAL →
      dpEx.step ((0 : ℤ), (0 : ℤ)) Action.UP = some (move ((0 : ℤ), (0 : ℤ)) Action.UP, 1, true)) ∧
    (inRange dpEx.n (move ((0 : ℤ), (0 : ℤ)) Action.UP) →
      dpEx.grid (move ((0 : ℤ), (0 : ℤ)) Action.UP) ≠ GridTile.HOLE →
      dpEx.grid (move ((0 : ℤ), (0 : ℤ)) Action.UP) ≠ GridTile.GOAL →
      dpEx.step ((0 : ℤ), (0 : ℤ)) Action.UP = some (move ((0 : ℤ), (0 : ℤ)) Action.UP, 0, false)) :=
  ⟨⟨by decide, by decide⟩,
    step_field_cases dpEx ((0 : ℤ), (0 : ℤ)) Action.UP (by decide) (by decide)⟩

end DP

namespace RL

open GridWorld

/-- C1 counterexample: in a reachable terminated state the next step call
fails the not-done assert and yields no triple, contradicting the claimed
return of (current_position, 0, true). -/
theorem step_after_done_counterexample :
    rlExDone.done = true ∧
    (rlExDone.step Action.UP).1 = none ∧
    (rlExDone.step Action.UP).1 ≠ some (rlExDone.agentPos, 0, true) := by
  refine ⟨by decide, by decide, by decide⟩

/-- C1 (amended): whenever the terminal flag is set, a further step(action)
fails its not-done assert: it yields no triple and leaves the environment
(position, return, flag) unchanged for every action; the flag stays set, only
reset clears it; the (current_position, 0, true) short-circuit happens exactly
when the flag is clear but the agent stands on a GOAL or HOLE tile. -/
theorem step_after_done_amended (e : Environment) (a : Action) (hd : e.done = true) :
    e.step a = (none, e) ∧
    ((e.step a).2).done = true ∧
    ((e.reset).2).done = false ∧
    (∀ f : Environment, f.done = false → inRange f.n f.agentPos →
      (f.grid f.agentPos = GridTile.GOAL ∨ f.grid f.agentPos = GridTile.HOLE) →
      f.step a = (some (f.agentPos, 0, true), f)) := by
  have h1 : e.step a = (none, e) := by
    unfold Environment.step
    by_cases hr : inRange e.n e.agentPos
    · rw [if_neg (not_not_intro hr), if_pos hd]
    · rw [if_pos hr]
  refine ⟨h1, by rw [h1]; exact hd, rfl, ?_⟩
  intro f hf hr ht
  unfold Environment.step
  rw [if_neg (not_not_intro hr), if_neg (by simp [hf]), if_pos ht]

/-- Witness for the amended C1 at the concrete terminated environment. -/
theorem step_after_done_amended_witness :
    rlExDone.done = true ∧
    (rlExDone.step Action.LEFT = (none, rlExDone) ∧
      ((rlExDone.step Action.LEFT).2).done = true ∧
      ((rlExDone.reset).2).done = false ∧
      (∀ f : Environment, f.done = false → inRange f.n f.agentPos →
        (f.grid f.agentPos = GridTile.GOAL ∨ f.grid f.agentPos = GridTile.HOLE) →
        f.step Action.LEFT = (some (f.agentPos, 0, true), f))) :=
  ⟨by decide, step_after_done_amended rlExDone Action.LEFT (by decide)⟩

/-- step preserves the construction-time agent position. -/
theorem step_initialAgentPos (e : Environment) (a : Action) :
    ((e.step a).2).initialAgentPos = e.initialAgentPos := by
  unfold Environment.step
  split_ifs <;> rfl

/-- reset preserves the construction-time agent position. -/
theorem reset_initialAgentPos (e : Environment) :
    ((e.reset).2).initialAgentPos = e.initialAgentPos := rfl

/-- create_hole preserves the construction-time agent position. -/
theorem create_hole_initialAgentPos (e g : Environment) (p : ℤ × ℤ)
    (h : e.create_hole p = some g) : g.initialAgentPos = e.initialAgentPos := by
  unfold Environment.create_hole at h
  split_ifs at h
  cases h
  rfl

/-- Every reachable environment keeps the construction-time agent position. -/
theorem reachable_initialAgentPos (e f : Environment) (h : Reachable e f) :
    f.initialAgentPos = e.initialAgentPos := by
  induction h with
  | refl => rfl
  | step f a _ ih => rw [step_initialAgentPos]; exact ih
  | reset f _ ih => rw [reset_initialAgentPos]; exact ih
  | hole f g p _ hh ih => rw [create_hole_initialAgentPos f g p hh]; exact ih

/-- A successfully constructed environment records the given agent position. -/
theorem mkEnvironment_initialAgentPos (n : ℕ) (a g : ℤ × ℤ) (e : Environment)
    (h : mkEnvironment n a g = some e) : e.initialAgentPos = a := by
  unfold mkEnvironment at h
  split_ifs at h
  cases h
  rfl

/-- C5: from any state reachable from a constructed environment, reset returns
the construction-time agent position, restores it as the current position,
zeroes the return and clears the terminal flag; and reset is idempotent: a
second reset leaves the same state and returns the same value. -/
theorem reset_restores_and_idempotent (n : ℕ) (a g : ℤ × ℤ) (e0 e : Environment)
    (hmk : mkEnvironment n a g = some e0) (hre : Reachable e0 e) :
    (e.reset).1 = a ∧
    ((e.reset).2).agentPos = a ∧
    ((e.reset).2).ret = 0 ∧
    ((e.reset).2).done = false ∧
    (((e.reset).2).reset).1 = (e.reset).1 ∧
    (((e.reset).2).reset).2 = (e.reset).2 := by
  have hinit : e.initialAgentPos = a := by
    rw [reachable_initialAgentPos e0 e hre, mkEnvironment_initialAgentPos n a g e0 hmk]
  exact ⟨hinit, hinit, rfl, rfl, rfl, rfl⟩

/-- Witness for C5: the concrete terminated environment reached from rlEx. -/
theorem reset_restores_and_idempotent_witness :
    mkEnvironment 2 ((0 : ℤ), (0 : ℤ)) ((1 : ℤ), (1 : ℤ)) = some rlEx ∧
    Reachable rlEx rlExDone ∧
    ((rlExDone.reset).1 = ((0 : ℤ), (0 : ℤ)) ∧
      ((rlExDone.reset).2).agentPos = ((0 : ℤ), (0 : ℤ)) ∧
      ((rlExDone.reset).2).ret = 0 ∧
      ((rlExDone.reset).2).done = false ∧
      (((rlExDone.reset).2).reset).1 = (rlExDone.reset).1 ∧
      (((rlExDone.reset).2).reset).2 = (rlExDone.reset).2) := by
  have hre : Reachable rlEx rlExDone :=
    Reachable.step rlEx ((rlEx.step Action.DOWN).2) Action.RIGHT
      (Reachable.step rlEx rlEx Action.DOWN (Reachable.refl rlEx))
  exact ⟨rfl, hre,
    reset_restores_and_idempotent 2 ((0 : ℤ), (0 : ℤ)) ((1 : ℤ), (1 : ℤ)) rlEx rlExDone rfl hre⟩

/-- C10: with n > 1 and in-range coordinates, construction of the stateful
environment fails exactly when the agent position equals the goal position;
on success the terminal flag is clear, the return is zero and the current
position is the given agent position. -/
theorem mkEnvironment_spec (n : ℕ) (a g : ℤ × ℤ)
    (hn : 1 < n) (ha : inRange n a) (hg : inRange n g) :
    (a = g → mkEnvironment n a g = none) ∧
    (a ≠ g → ∃ e, mkEnvironment n a g = some e ∧
      e.done = false ∧ e.ret = 0 ∧ e.agentPos = a ∧ e.initialAgentPos = a) := by
  unfold mkEnvironment
  rw [if_neg (not_not_intro hn), if_neg (not_not_intro ha), if_neg (not_not_intro hg)]
  constructor
  · intro h; rw [if_pos h]
  · intro h; rw [if_neg h]; exact ⟨_, rfl, rfl, rfl, rfl, rfl⟩

/-- Witness for C10 at concrete construction parameters. -/
theorem mkEnvironment_spec_witness :
    (1 < 2 ∧ inRange 2 ((0 : ℤ), (0 : ℤ)) ∧ inRange 2 ((1 : ℤ), (1 : ℤ))) ∧
    ((((0 : ℤ), (0 : ℤ)) = ((1 : ℤ), (1 : ℤ)) →
        mkEnvironment 2 ((0 : ℤ), (0 : ℤ)) ((1 : ℤ), (1 : ℤ)) = none) ∧
      (((0 : ℤ), (0 : ℤ)) ≠ ((1 : ℤ), (1 : ℤ)) →
        ∃ e, mkEnvironment 2 ((0 : ℤ), (0 : ℤ)) ((1 : ℤ), (1 : ℤ)) = some e ∧
          e.done = false ∧ e.ret = 0 ∧ e.agentPos = ((0 : ℤ), (0 : ℤ)) ∧
          e.initialAgentPos = ((0 : ℤ), (0 : ℤ)))) :=
  ⟨⟨by decide, by decide, by decide⟩,
    mkEnvironment_spec 2 ((0 : ℤ), (0 : ℤ)) ((1 : ℤ), (1 : ℤ)) (by decide) (by decide) (by decide)⟩

end RL

namespace DP

open GridWorld

/-- The first-occurrence scan picks an action attaining the maximum, and every
action strictly earlier in enumeration order has a strictly smaller value. -/
theorem maxByValue_first_max (f : Action → ℚ) :
    (∀ a, f a ≤ f (maxByValue f)) ∧
    (∀ a, Action.value a < Action.value (maxByValue f) → f a < f (maxByValue f)) := by
  unfold maxByValue
  simp only [List.foldl]
  split_ifs <;> constructor <;> intro a <;> try intro hlt
  all_goals cases a
  all_goals try simp_all [Action.value]
  all_goals linarith

/-- States outside the processed list keep their policy_improvement entry. -/
theorem improveFold_untouched (e : Environment) (v : V) (discount : ℚ)
    (L : List (ℤ × ℤ)) (p : PolT) (b : Bool) (s : ℤ × ℤ) (hs : s ∉ L) :
    (List.foldl (improveBody e v discount) (p, b) L).1 s = p s := by
  induction L generalizing p b with
  | nil => rfl
  | cons t L ih =>
      have hs1 : s ∉ L := fun h => hs (List.mem_cons_of_mem t h)
      have hst : s ≠ t := fun h => hs (h ▸ List.mem_cons_self t L)
      simp only [List.foldl]
      rw [ih _ _ hs1]
      simp only [improveBody]
      exact Function.update_noteq hst _ _

/-- Every state in the processed list receives the argmax entry. -/
theorem improveFold_apply (e : Environment) (v : V) (discount : ℚ)
    (L : List (ℤ × ℤ)) (p : PolT) (b : Bool) (s : ℤ × ℤ) (hs : s ∈ L) :
    (List.foldl (improveBody e v discount) (p, b) L).1 s =
      maxByValue (qVal e v discount s) := by
  induction L generalizing p b with
  | nil => cases hs
  | cons t L ih =>
      simp only [List.foldl]
      by_cases h : s ∈ L
      · exact ih _ _ h
      · have hst : s = t := by
          rcases List.mem_cons.mp hs with h1 | h1
          · exact h1
          · exact absurd h1 h
        subst hst
        rw [improveFold_untouched e v discount L _ _ s h]
        simp only [improveBody]
        exact Function.update_same _ _ _

/-- States outside the processed list keep their extraction-pass entry. -/
theorem viExtractFold_untouched (e : Environment) (v : V) (discount : ℚ)
    (L : List (ℤ × ℤ)) (p : PolT) (s : ℤ × ℤ) (hs : s ∉ L) :
    (List.foldl
      (fun acc u => Function.update acc u (maxByValue (qVal e v discount u))) p L) s
      = p s := by
  induction L generalizing p with
  | nil => rfl
  | cons t L ih =>
      have hs1 : s ∉ L := fun h => hs (List.mem_cons_of_mem t h)
      have hst : s ≠ t := fun h => hs (h ▸ List.mem_cons_self t L)
      simp only [List.foldl]
      rw [ih _ hs1]
      exact Function.update_noteq hst _ _

/-- Every state in the processed list receives the extraction-pass argmax. -/
theorem viExtractFold_apply (e : Environment) (v : V) (discount : ℚ)
    (L : List (ℤ × ℤ)) (p : PolT) (s : ℤ × ℤ) (hs : s ∈ L) :
    (List.foldl
      (fun acc u => Function.update acc u (maxByValue (qVal e v discount u))) p L) s
      = maxByValue (qVal e v discount s) := by
  induction L generalizing p with
  | nil => cases hs
  | cons t L ih =>
      simp only [List.foldl]
      by_cases h : s ∈ L
      · exact ih _ h
      · have hst : s = t := by
          rcases List.mem_cons.mp hs with h1 | h1
          · exact h1
          · exact absurd h1 h
        subst hst
        rw [viExtractFold_untouched e v discount L _ s h]
        exact Function.update_same _ _ _

/-- C4: greedy selection breaks ties by first occurrence in the enumeration
order UP, DOWN, LEFT, RIGHT: both the dict-max scan used by policy_improvement
and the value_iteration extraction pass, and np.argmax over a Q-table row,
return an action attaining the maximum with all strictly earlier actions
strictly smaller; and policy_improvement and the extraction pass write exactly
this action for every state of the grid. -/
theorem greedy_tie_break_first_occurrence :
    (∀ f : Action → ℚ, (∀ a, f a ≤ f (maxByValue f)) ∧
      (∀ a, Action.value a < Action.value (maxByValue f) → f a < f (maxByValue f))) ∧
    (∀ f : Action → ℚ, (∀ a, f a ≤ f (RL.npArgmax f)) ∧
      (∀ a, Action.value a < Action.value (RL.npArgmax f) → f a < f (RL.npArgmax f))) ∧
    (∀ (e : Environment) (v : V) (discount : ℚ) (p : PolT) (s : ℤ × ℤ),
      s ∈ ndindex e.n →
      (policyImprovement e v discount p).1 s = maxByValue (qVal e v discount s)) ∧
    (∀ (e : Environment) (v : V) (discount : ℚ) (p : PolT) (s : ℤ × ℤ),
      s ∈ ndindex e.n →
      viExtract e v discount p s = maxByValue (qVal e v discount s)) := by
  refine ⟨maxByValue_first_max, maxByValue_first_max, ?_, ?_⟩
  · intro e v discount p s hs
    exact improveFold_apply e v discount (ndindex e.n) p true s hs
  · intro e v discount p s hs
    exact viExtractFold_apply e v discount (ndindex e.n) p s hs

/-- Witness for C4 at a concrete grid, value function, policy table and state. -/
theorem greedy_tie_break_first_occurrence_witness :
    ((0 : ℤ), (0 : ℤ)) ∈ ndindex dpEx.n ∧
    (policyImprovement dpEx (fun _ => (0 : ℚ)) (9/10) (fun _ => Action.UP)).1
        ((0 : ℤ), (0 : ℤ))
      = maxByValue (qVal dpEx (fun _ => (0 : ℚ)) (9/10) ((0 : ℤ), (0 : ℤ))) ∧
    viExtract dpEx (fun _ => (0 : ℚ)) (9/10) (fun _ => Action.UP) ((0 : ℤ), (0 : ℤ))
      = maxByValue (qVal dpEx (fun _ => (0 : ℚ)) (9/10) ((0 : ℤ), (0 : ℤ))) :=
  ⟨by decide,
    greedy_tie_break_first_occurrence.2.2.1 dpEx (fun _ => (0 : ℚ)) (9/10)
      (fun _ => Action.UP) ((0 : ℤ), (0 : ℤ)) (by decide),
    greedy_tie_break_first_occurrence.2.2.2 dpEx (fun _ => (0 : ℚ)) (9/10)
      (fun _ => Action.UP) ((0 : ℤ), (0 : ℤ)) (by decide)⟩

end DP

namespace RL

open GridWorld

/-- C8: with epsilon = 0 the epsilon_greedy selection ignores the random draws
(np.random.rand() yields a value in [0,1), so the exploration branch is never
taken): for every Q-table and state it equals the first-occurrence argmax of
the Q-row of that state. -/
theorem epsilon_greedy_zero_deterministic (q : QFun) (s : ℤ × ℤ) (d : Draws)
    (h0 : 0 ≤ d.rand) :
    epsilonGreedy 0 d q s = npArgmax (q s) ∧
    (∀ a, q s a ≤ q s (npArgmax (q s))) ∧
    (∀ a, Action.value a < Action.value (npArgmax (q s)) →
      q s a < q s (npArgmax (q s))) := by
  refine ⟨?_, (DP.maxByValue_first_max (q s)).1, (DP.maxByValue_first_max (q s)).2⟩
  unfold epsilonGreedy
  rw [if_neg (not_lt.mpr h0)]

/-- Witness for C8 at a concrete Q-table, state and pair of draws. -/
theorem epsilon_greedy_zero_deterministic_witness :
    (0 : ℚ) ≤ dEx.rand ∧
    (epsilonGreedy 0 dEx qEx ((0 : ℤ), (0 : ℤ)) = npArgmax (qEx ((0 : ℤ), (0 : ℤ))) ∧
      (∀ a, qEx ((0 : ℤ), (0 : ℤ)) a ≤ qEx ((0 : ℤ), (0 : ℤ)) (npArgmax (qEx ((0 : ℤ), (0 : ℤ))))) ∧
      (∀ a, Action.value a < Action.value (npArgmax (qEx ((0 : ℤ), (0 : ℤ)))) →
        qEx ((0 : ℤ), (0 : ℤ)) a < qEx ((0 : ℤ), (0 : ℤ)) (npArgmax (qEx ((0 : ℤ), (0 : ℤ)))))) :=
  ⟨by norm_num [dEx],
    epsilon_greedy_zero_deterministic qEx ((0 : ℤ), (0 : ℤ)) dEx (by norm_num [dEx])⟩

end RL

namespace RL

open GridWorld

/-- C6: the q_learning inner-loop iteration differs from the sarsa iteration
only in its bootstrap target.  After env.step yields (next_state, reward,
done), q_learning updates Q[state, action] by
Q += lr * (reward + discount * max over the four actions of Q[next_state, .]
- Q), while sarsa with the same draws updates towards
Q[next_state, epsilon_greedy(next_state)]; and the action executed by any
iteration is the fresh epsilon_greedy selection on that iteration's state with
its then-current Q-table, not the maximizing action used in the target. -/
theorem q_learning_update_off_policy (e : Environment) (q : QFun) (s : ℤ × ℤ)
    (learning_rate discount epsilon : ℚ) (d1 d2 : Draws)
    (next_state : ℤ × ℤ) (reward : ℤ) (done : Bool)
    (h : (e.step (epsilonGreedy epsilon d1 q s)).1 = some (next_state, reward, done)) :
    qLearningIter e q s learning_rate discount epsilon d1
      = some ((e.step (epsilonGreedy epsilon d1 q s)).2,
          updateQ q s (epsilonGreedy epsilon d1 q s)
            (q s (epsilonGreedy epsilon d1 q s) +
              learning_rate * ((reward : ℚ) + discount * qRowMax (q next_state) -
                q s (epsilonGreedy epsilon d1 q s))),
          next_state, done, epsilonGreedy epsilon d1 q s) ∧
    sarsaIter e q s learning_rate discount epsilon d1 d2
      = some ((e.step (epsilonGreedy epsilon d1 q s)).2,
          updateQ q s (epsilonGreedy epsilon d1 q s)
            (q s (epsilonGreedy epsilon d1 q s) +
              learning_rate * ((reward : ℚ) +
                discount * q next_state (epsilonGreedy epsilon d2 q next_state) -
                q s (epsilonGreedy epsilon d1 q s))),
          next_state, done, epsilonGreedy epsilon d1 q s) ∧
    (∀ (e3 : Environment) (q3 : QFun) (s3 : ℤ × ℤ) (d3 : Draws)
        (res : Environment × QFun × (ℤ × ℤ) × Bool × Action),
      qLearningIter e3 q3 s3 learning_rate discount epsilon d3 = some res →
      res.2.2.2.2 = epsilonGreedy epsilon d3 q3 s3) := by
  refine ⟨?_, ?_, ?_⟩
  · simp only [qLearningIter, h]
  · simp only [sarsaIter, h]
  · intro e3 q3 s3 d3 res hres
    rcases h3 : (e3.step (epsilonGreedy epsilon d3 q3 s3)).1 with _ | ⟨ts, tr, td⟩
    · simp only [qLearningIter, h3] at hres
      exact Option.noConfusion hres
    · simp only [qLearningIter, h3] at hres
      injection hres with h4
      subst h4
      rfl

/-- Witness for C6 at a concrete environment, Q-table, state and draws. -/
theorem q_learning_update_off_policy_witness :
    (rlEx.step (epsilonGreedy 0 dEx0 qEx ((0 : ℤ), (0 : ℤ)))).1
      = some (((0 : ℤ), (0 : ℤ)), -1, false) ∧
    qLearningIter rlEx qEx ((0 : ℤ), (0 : ℤ)) (3/10) (9/10) 0 dEx0
      = some ((rlEx.step (epsilonGreedy 0 dEx0 qEx ((0 : ℤ), (0 : ℤ)))).2,
          updateQ qEx ((0 : ℤ), (0 : ℤ)) (epsilonGreedy 0 dEx0 qEx ((0 : ℤ), (0 : ℤ)))
            (qEx ((0 : ℤ), (0 : ℤ)) (epsilonGreedy 0 dEx0 qEx ((0 : ℤ), (0 : ℤ))) +
              (3/10) * (((-1 : ℤ) : ℚ) + (9/10) * qRowMax (qEx ((0 : ℤ), (0 : ℤ))) -
                qEx ((0 : ℤ), (0 : ℤ)) (epsilonGreedy 0 dEx0 qEx ((0 : ℤ), (0 : ℤ))))),
          ((0 : ℤ), (0 : ℤ)), false, epsilonGreedy 0 dEx0 qEx ((0 : ℤ), (0 : ℤ))) := by
  have h : (rlEx.step (epsilonGreedy 0 dEx0 qEx ((0 : ℤ), (0 : ℤ)))).1
      = some (((0 : ℤ), (0 : ℤ)), -1, false) := by decide
  exact ⟨h, (q_learning_update_off_policy rlEx qEx ((0 : ℤ), (0 : ℤ)) (3/10) (9/10) 0
    dEx0 dEx0 ((0 : ℤ), (0 : ℤ)) (-1) false h).1⟩

end RL

namespace DP

open GridWorld

/-- States outside the processed list keep their value entry during a sweep. -/
theorem evalFold_untouched (e : Environment) (pol : PolT) (discount : ℚ)
    (L : List (ℤ × ℤ)) :
    ∀ (v : V) (d : ℚ) (s : ℤ × ℤ), s ∉ L →
      (List.foldl (evalBody e pol discount) (v, d) L).1 s = v s := by
  induction L with
  | nil => intro v d s _; rfl
  | cons t L ih =>
      intro v d s hs
      have hs1 : s ∉ L := fun h => hs (List.mem_cons_of_mem t h)
      have hst : s ≠ t := fun h => hs (h ▸ List.mem_cons_self t L)
      simp only [List.foldl, evalBody]
      rw [ih _ _ s hs1]
      exact Function.update_noteq hst _ _

/-- Unfolding one state of the delta fold. -/
theorem deltaOf_cons (v w : V) (d : ℚ) (s : ℤ × ℤ) (L : List (ℤ × ℤ)) :
    deltaOf v w d (s :: L) = deltaOf v w (max d |v s - w s|) L := rfl

/-- The initial value bounds the folded delta from below. -/
theorem le_deltaOf (v w : V) (L : List (ℤ × ℤ)) : ∀ d : ℚ, d ≤ deltaOf v w d L := by
  induction L with
  | nil => intro d; exact le_refl d
  | cons t L ih =>
      intro d
      exact le_trans (le_max_left _ _) (ih (max d |v t - w t|))

/-- Each listed state contributes its absolute difference to the folded delta. -/
theorem abs_le_deltaOf (v w : V) (L : List (ℤ × ℤ)) :
    ∀ (d : ℚ) (s : ℤ × ℤ), s ∈ L → |v s - w s| ≤ deltaOf v w d L := by
  induction L with
  | nil => intro d s hs; cases hs
  | cons t L ih =>
      intro d s hs
      rcases List.mem_cons.mp hs with h1 | h1
      · subst h1
        exact le_trans (le_max_right _ _) (le_deltaOf v w L (max d |v s - w s|))
      · exact ih _ s h1

/-- The folded delta is bounded by any bound on its contributions. -/
theorem deltaOf_le (v w : V) (B : ℚ) (L : List (ℤ × ℤ)) :
    ∀ d : ℚ, d ≤ B → (∀ s ∈ L, |v s - w s| ≤ B) → deltaOf v w d L ≤ B := by
  induction L with
  | nil => intro d hd _; exact hd
  | cons t L ih =>
      intro d hd h
      exact ih _ (max_le hd (h t (List.mem_cons_self t L)))
        (fun s hs => h s (List.mem_cons_of_mem t hs))

/-- The folded delta reads the first array only at the listed states. -/
theorem deltaOf_congr (v1 v2 w : V) (L : List (ℤ × ℤ)) :
    ∀ d : ℚ, (∀ s ∈ L, v1 s = v2 s) → deltaOf v1 w d L = deltaOf v2 w d L := by
  induction L with
  | nil => intro d _; rfl
  | cons t L ih =>
      intro d h
      have ht : v1 t = v2 t := h t (List.mem_cons_self t L)
      rw [deltaOf_cons, deltaOf_cons, ht]
      exact ih _ (fun s hs => h s (List.mem_cons_of_mem t hs))

/-- np.ndindex enumerates pairwise distinct coordinates. -/
theorem ndindex_nodup (n : ℕ) : (ndindex n).Nodup := by
  unfold ndindex
  rw [List.nodup_flatMap]
  constructor
  · intro i _
    refine List.Nodup.map ?_ (List.nodup_range n)
    intro a b hab
    simpa using hab
  · refine List.Pairwise.imp ?_ (List.nodup_range n)
    intro i j hij a hai haj
    obtain ⟨b, _, rfl⟩ := List.mem_map.mp hai
    obtain ⟨c, _, hc⟩ := List.mem_map.mp haj
    apply hij
    have h1 : Int.ofNat j = Int.ofNat i := congrArg Prod.fst hc
    exact Int.ofNat.inj h1.symm

/-- Parallel sweeps from value arrays within M of each other everywhere stay
within M everywhere, and land within discount * M on every processed state. -/
theorem evalFold_pair (e : Environment) (pol : PolT) (discount : ℚ)
    (hd0 : 0 ≤ discount) (hd1 : discount ≤ 1) (M : ℚ) (hM0 : 0 ≤ M)
    (L : List (ℤ × ℤ)) :
    ∀ (v1 v2 : V) (d1 d2 : ℚ), (∀ t, |v1 t - v2 t| ≤ M) →
      (∀ t, |(List.foldl (evalBody e pol discount) (v1, d1) L).1 t
          - (List.foldl (evalBody e pol discount) (v2, d2) L).1 t| ≤ M) ∧
      (∀ t ∈ L, |(List.foldl (evalBody e pol discount) (v1, d1) L).1 t
          - (List.foldl (evalBody e pol discount) (v2, d2) L).1 t| ≤ discount * M) := by
  induction L with
  | nil =>
      intro v1 v2 d1 d2 hM
      exact ⟨hM, fun t ht => absurd ht (List.not_mem_nil t)⟩
  | cons s L ih =>
      intro v1 v2 d1 d2 hM
      have hnv : |nvOf e pol discount v1 s - nvOf e pol discount v2 s| ≤ discount * M := by
        have hsub : nvOf e pol discount v1 s - nvOf e pol discount v2 s
            = discount * (v1 (e.stepCore s (pol s)).1 - v2 (e.stepCore s (pol s)).1) := by
          unfold nvOf; ring
        rw [hsub, abs_mul, abs_of_nonneg hd0]
        exact mul_le_mul_of_nonneg_left (hM _) hd0
      have hdM : discount * M ≤ M := mul_le_of_le_one_left hM0 hd1
      have hM1 : ∀ t, |Function.update v1 s (nvOf e pol discount v1 s) t
          - Function.update v2 s (nvOf e pol discount v2 s) t| ≤ M := by
        intro t
        by_cases hts : t = s
        · subst hts
          rw [Function.update_same, Function.update_same]
          exact le_trans hnv hdM
        · rw [Function.update_noteq hts, Function.update_noteq hts]
          exact hM t
      have ihp := ih (Function.update v1 s (nvOf e pol discount v1 s))
        (Function.update v2 s (nvOf e pol discount v2 s))
        (max d1 |v1 s - nvOf e pol discount v1 s|)
        (max d2 |v2 s - nvOf e pol discount v2 s|) hM1
      constructor
      · intro t
        simp only [List.foldl, evalBody]
        exact ihp.1 t
      · intro t ht
        simp only [List.foldl, evalBody]
        rcases List.mem_cons.mp ht with h1 | h1
        · subst h1
          by_cases hsL : t ∈ L
          · exact ihp.2 t hsL
          · rw [evalFold_untouched e pol discount L _ _ t hsL,
              evalFold_untouched e pol discount L _ _ t hsL,
              Function.update_same, Function.update_same]
            exact hnv
        · exact ihp.2 t h1

/-- Over distinct states the accumulated sweep delta is exactly the fold of
the absolute differences between the pre-sweep and post-sweep arrays. -/
theorem evalFold_delta (e : Environment) (pol : PolT) (discount : ℚ)
    (L : List (ℤ × ℤ)) :
    ∀ (v : V) (d : ℚ), L.Nodup →
      (List.foldl (evalBody e pol discount) (v, d) L).2
        = deltaOf v (List.foldl (evalBody e pol discount) (v, d) L).1 d L := by
  induction L with
  | nil => intro v d _; rfl
  | cons s L ih =>
      intro v d hnd
      obtain ⟨hsL, hndL⟩ := List.nodup_cons.mp hnd
      simp only [List.foldl, evalBody]
      rw [ih _ _ hndL, deltaOf_cons]
      have hW : (List.foldl (evalBody e pol discount)
          (Function.update v s (nvOf e pol discount v s),
            max d |v s - nvOf e pol discount v s|) L).1 s
          = nvOf e pol discount v s := by
        rw [evalFold_untouched e pol discount L _ _ s hsL]
        exact Function.update_same _ _ _
      rw [hW]
      exact deltaOf_congr _ _ _ L _ (fun t htL =>
        Function.update_noteq (fun (h : t = s) => hsL (h ▸ htL)) _ _)

/-- The sweep delta as a fold of absolute differences. -/
theorem sweepDelta_eq (e : Environment) (pol : PolT) (discount : ℚ) (v : V) :
    sweepDelta e pol discount v
      = deltaOf v (sweepV e pol discount v) 0 (ndindex e.n) :=
  evalFold_delta e pol discount (ndindex e.n) v 0 (ndindex_nodup e.n)

/-- The sweep delta is nonnegative. -/
theorem sweepDelta_nonneg (e : Environment) (pol : PolT) (discount : ℚ) (v : V) :
    0 ≤ sweepDelta e pol discount v := by
  rw [sweepDelta_eq]
  exact le_deltaOf _ _ _ 0

/-- The change of any entry in one sweep is bounded by the sweep delta. -/
theorem abs_sub_sweepV_le (e : Environment) (pol : PolT) (discount : ℚ) (v : V)
    (t : ℤ × ℤ) :
    |v t - sweepV e pol discount v t| ≤ sweepDelta e pol discount v := by
  by_cases ht : t ∈ ndindex e.n
  · rw [sweepDelta_eq]
    exact abs_le_deltaOf v (sweepV e pol discount v) (ndindex e.n) 0 t ht
  · have hu : sweepV e pol discount v t = v t :=
      evalFold_untouched e pol discount (ndindex e.n) v 0 t ht
    rw [hu, sub_self, abs_zero]
    exact sweepDelta_nonneg e pol discount v

/-- The Gauss-Seidel sweep is a discount-contraction on the sweep delta. -/
theorem sweepDelta_contract (e : Environment) (pol : PolT) (discount : ℚ)
    (hd0 : 0 ≤ discount) (hd1 : discount < 1) (v : V) :
    sweepDelta e pol discount (sweepV e pol discount v)
      ≤ discount * sweepDelta e pol discount v := by
  have hpair := evalFold_pair e pol discount hd0 (le_of_lt hd1)
    (sweepDelta e pol discount v) (sweepDelta_nonneg e pol discount v) (ndindex e.n)
    v (sweepV e pol discount v) 0 0 (abs_sub_sweepV_le e pol discount v)
  rw [sweepDelta_eq]
  refine deltaOf_le _ _ _ _ 0
    (mul_nonneg hd0 (sweepDelta_nonneg e pol discount v)) ?_
  intro s hs
  exact hpair.2 s hs

/-- The sweep delta of the k-th sweep decays geometrically. -/
theorem sweepDelta_iterate (e : Environment) (pol : PolT) (discount : ℚ)
    (hd0 : 0 ≤ discount) (hd1 : discount < 1) (v : V) :
    ∀ k : ℕ, sweepDelta e pol discount ((sweepV e pol discount)^[k] v)
      ≤ discount ^ k * sweepDelta e pol discount v := by
  intro k
  induction k with
  | zero => simp
  | succ k ih =>
      rw [Function.iterate_succ_apply']
      calc sweepDelta e pol discount (sweepV e pol discount ((sweepV e pol discount)^[k] v))
          ≤ discount * sweepDelta e pol discount ((sweepV e pol discount)^[k] v) :=
            sweepDelta_contract e pol discount hd0 hd1 _
        _ ≤ discount * (discount ^ k * sweepDelta e pol discount v) :=
            mul_le_mul_of_nonneg_left ih hd0
        _ = discount ^ (k + 1) * sweepDelta e pol discount v := by ring

/-- Some sweep reaches a delta below any positive threshold. -/
theorem exists_sweepDelta_lt (e : Environment) (pol : PolT)
    (discount threshold : ℚ) (hd0 : 0 ≤ discount) (hd1 : discount < 1)
    (hth : 0 < threshold) (v : V) :
    ∃ k, sweepDelta e pol discount ((sweepV e pol discount)^[k] v) < threshold := by
  rcases eq_or_lt_of_le (sweepDelta_nonneg e pol discount v) with hD | hD
  · refine ⟨0, ?_⟩
    rw [Function.iterate_zero_apply, ← hD]
    exact hth
  · obtain ⟨k, hk⟩ := exists_pow_lt_of_lt_one (div_pos hth hD) hd1
    refine ⟨k, lt_of_le_of_lt (sweepDelta_iterate e pol discount hd0 hd1 v k) ?_⟩
    exact (lt_div_iff₀ hD).mp hk

/-- The fueled evaluation loop returns as soon as some sweep delta is small. -/
theorem evalLoop_isSome_of_delta (e : Environment) (pol : PolT)
    (discount threshold : ℚ) :
    ∀ (k : ℕ) (v : V),
      sweepDelta e pol discount ((sweepV e pol discount)^[k] v) < threshold →
      (evalLoop e pol discount threshold (k + 1) v).isSome = true := by
  intro k
  induction k with
  | zero =>
      intro v h
      rw [Function.iterate_zero_apply] at h
      have h2 : (evalSweep e pol discount v).2 < threshold := h
      simp only [evalLoop]
      rw [if_pos h2]
      rfl
  | succ k ih =>
      intro v h
      by_cases h0 : (evalSweep e pol discount v).2 < threshold
      · simp only [evalLoop]
        rw [if_pos h0]
        rfl
      · simp only [evalLoop]
        rw [if_neg h0]
        apply ih
        show sweepDelta e pol discount
          ((sweepV e pol discount)^[k] (sweepV e pol discount v)) < threshold
        rw [← Function.iterate_succ_apply]
        exact h

/-- C7: for every grid, every discount in [0,1), every positive threshold,
every policy table and every initial value function, the policy_evalution
sweep loop reaches delta < threshold after finitely many sweeps and returns. -/
theorem policy_evaluation_terminates (e : Environment) (pol : PolT)
    (discount threshold : ℚ) (v0 : V)
    (hd0 : 0 ≤ discount) (hd1 : discount < 1) (hth : 0 < threshold) :
    ∃ fuel, (evalLoop e pol discount threshold fuel v0).isSome = true := by
  obtain ⟨k, hk⟩ := exists_sweepDelta_lt e pol discount threshold hd0 hd1 hth v0
  exact ⟨k + 1, evalLoop_isSome_of_delta e pol discount threshold k v0 hk⟩

/-- Witness for C7 at a concrete grid, policy, discount and threshold. -/
theorem policy_evaluation_terminates_witness :
    ((0 : ℚ) ≤ 1/2 ∧ (1/2 : ℚ) < 1 ∧ (0 : ℚ) < 1) ∧
    ∃ fuel,
      (evalLoop dpEx (fun _ => Action.UP) (1/2) 1 fuel (fun _ => 0)).isSome = true :=
  ⟨⟨by norm_num, by norm_num, by norm_num⟩,
    policy_evaluation_terminates dpEx (fun _ => Action.UP) (1/2) 1 (fun _ => 0)
      (by norm_num) (by norm_num) (by norm_num)⟩

end DP

namespace DP

open GridWorld

/-- A heap write leaves every other ref untouched. -/
theorem write_frame (h : Heap) (r r2 : ℕ) (s : ℤ × ℤ) (x : ℚ) (hne : r2 ≠ r) :
    (h.write r s x).arrs r2 = h.arrs r2 :=
  Function.update_noteq hne _ _

/-- A heap policy_evalution sweep writes only the working ref. -/
theorem evalFoldH_frame (e : Environment) (pol : PolT) (discount : ℚ)
    (r r2 : ℕ) (hne : r2 ≠ r) (L : List (ℤ × ℤ)) :
    ∀ (h : Heap) (d : ℚ),
      ((List.foldl (evalBodyH e pol discount r) (h, d) L).1).arrs r2 = h.arrs r2 := by
  induction L with
  | nil => intro h d; rfl
  | cons s L ih =>
      intro h d
      simp only [List.foldl, evalBodyH]
      rw [ih _ _]
      exact write_frame h r r2 s _ hne

/-- The heap policy_evalution loop writes only the working ref. -/
theorem evalLoopH_frame (e : Environment) (pol : PolT) (discount threshold : ℚ)
    (r r2 : ℕ) (hne : r2 ≠ r) :
    ∀ (fuel : ℕ) (h : Heap),
      ((evalLoopH e pol discount threshold r fuel h).2).arrs r2 = h.arrs r2 := by
  intro fuel
  induction fuel with
  | zero => intro h; rfl
  | succ fuel ih =>
      intro h
      simp only [evalLoopH]
      by_cases hc : (evalSweepH e pol discount r h).2 < threshold
      · rw [if_pos hc]
        exact evalFoldH_frame e pol discount r r2 hne (ndindex e.n) h 0
      · rw [if_neg hc, ih _]
        exact evalFoldH_frame e pol discount r r2 hne (ndindex e.n) h 0

/-- The heap policy_evalution loop returns, if anything, the working ref. -/
theorem evalLoopH_fst (e : Environment) (pol : PolT) (discount threshold : ℚ)
    (r : ℕ) :
    ∀ (fuel : ℕ) (h : Heap),
      (evalLoopH e pol discount threshold r fuel h).1 = none ∨
      (evalLoopH e pol discount threshold r fuel h).1 = some r := by
  intro fuel
  induction fuel with
  | zero => intro h; exact Or.inl rfl
  | succ fuel ih =>
      intro h
      simp only [evalLoopH]
      by_cases hc : (evalSweepH e pol discount r h).2 < threshold
      · rw [if_pos hc]
        exact Or.inr rfl
      · rw [if_neg hc]
        exact ih _

/-- A heap value_iteration sweep writes only the working ref. -/
theorem viFoldH_frame (e : Environment) (discount : ℚ) (r r2 : ℕ)
    (hne : r2 ≠ r) (L : List (ℤ × ℤ)) :
    ∀ (h : Heap) (d : ℚ),
      ((List.foldl (viBodyH e discount r) (h, d) L).1).arrs r2 = h.arrs r2 := by
  induction L with
  | nil => intro h d; rfl
  | cons s L ih =>
      intro h d
      simp only [List.foldl, viBodyH]
      rw [ih _ _]
      exact write_frame h r r2 s _ hne

/-- The heap value_iteration sweep loop writes only the working ref. -/
theorem viLoopH_frame (e : Environment) (discount threshold : ℚ) (r r2 : ℕ)
    (hne : r2 ≠ r) :
    ∀ (fuel : ℕ) (h : Heap),
      ((viLoopH e discount threshold r fuel h).2).arrs r2 = h.arrs r2 := by
  intro fuel
  induction fuel with
  | zero => intro h; rfl
  | succ fuel ih =>
      intro h
      simp only [viLoopH]
      by_cases hc : (viSweepH e discount r h).2 < threshold
      · rw [if_pos hc]
        exact viFoldH_frame e discount r r2 hne (ndindex e.n) h 0
      · rw [if_neg hc, ih _]
        exact viFoldH_frame e discount r r2 hne (ndindex e.n) h 0

/-- C9: policy_evalution and value_iteration do not mutate the caller-supplied
value array: both copy it first and sweep only the fresh copy, so after any
number of sweeps (and the extraction pass, which writes only the policy table)
every entry of the array behind the caller ref is unchanged; the returned ref,
when the loop converges, is the fresh copy, never the caller ref. -/
theorem value_func_not_mutated (e : Environment) (pol : PolT)
    (discount threshold : ℚ) (fuel : ℕ) (h : Heap) (rcaller : ℕ) (p : PolT)
    (hr : rcaller < h.next) :
    ((policyEvaluationH e pol discount threshold fuel h rcaller).2).arrs rcaller
        = h.arrs rcaller ∧
    (∀ r0, (policyEvaluationH e pol discount threshold fuel h rcaller).1 = some r0 →
      r0 ≠ rcaller) ∧
    ((valueIterationH e discount threshold fuel h rcaller p).2.2).arrs rcaller
        = h.arrs rcaller ∧
    (∀ r0, (valueIterationH e discount threshold fuel h rcaller p).1 = some r0 →
      r0 ≠ rcaller) := by
  have hne : rcaller ≠ (h.copy rcaller).1 := Nat.ne_of_lt hr
  have hcopy : ((h.copy rcaller).2).arrs rcaller = h.arrs rcaller :=
    Function.update_noteq (Nat.ne_of_lt hr) _ _
  refine ⟨?_, ?_, ?_, ?_⟩
  · unfold policyEvaluationH
    rw [evalLoopH_frame e pol discount threshold _ rcaller hne fuel _]
    exact hcopy
  · intro r0 hr0
    unfold policyEvaluationH at hr0
    rcases evalLoopH_fst e pol discount threshold (h.copy rcaller).1 fuel
        ((h.copy rcaller).2) with hn | hs
    · rw [hr0] at hn; cases hn
    · rw [hr0] at hs
      injection hs with hs
      rw [hs]
      exact fun hcon => hne hcon.symm
  · have hloop := viLoopH_frame e discount threshold (h.copy rcaller).1 rcaller hne
      fuel ((h.copy rcaller).2)
    rcases hres : viLoopH e discount threshold (h.copy rcaller).1 fuel
        ((h.copy rcaller).2) with ⟨b, h2⟩
    rw [hres] at hloop
    cases b
    · simp only [valueIterationH, hres]
      rw [hloop]
      exact hcopy
    · simp only [valueIterationH, hres]
      rw [hloop]
      exact hcopy
  · intro r0 hr0
    rcases hres : viLoopH e discount threshold (h.copy rcaller).1 fuel
        ((h.copy rcaller).2) with ⟨b, h2⟩
    simp only [valueIterationH, hres] at hr0
    cases b
    · simp at hr0
    · simp only at hr0
      injection hr0 with hr0
      rw [← hr0]
      exact fun hcon => hne hcon.symm

/-- Witness for C9 at a concrete heap, grid and parameters. -/
theorem value_func_not_mutated_witness :
    0 < heapEx.next ∧
    (((policyEvaluationH dpEx (fun _ => Action.UP) (1/2) 1 1 heapEx 0).2).arrs 0
        = heapEx.arrs 0 ∧
      (∀ r0, (policyEvaluationH dpEx (fun _ => Action.UP) (1/2) 1 1 heapEx 0).1 = some r0 →
        r0 ≠ 0) ∧
      ((valueIterationH dpEx (1/2) 1 1 heapEx 0 (fun _ => Action.UP)).2.2).arrs 0
        = heapEx.arrs 0 ∧
      (∀ r0, (valueIterationH dpEx (1/2) 1 1 heapEx 0 (fun _ => Action.UP)).1 = some r0 →
        r0 ≠ 0)) :=
  ⟨by decide,
    value_func_not_mutated dpEx (fun _ => Action.UP) (1/2) 1 1 heapEx 0
      (fun _ => Action.UP) (by decide)⟩

end DP
